import Mathlib

/-!
Verification of the stengel model-training notebooks.

The notebooks orchestrate a `PitchData` container (from the external
`stengel.model.pitch_data` package, whose source is not included in the
repository; its behaviour is modelled from the specification where needed),
split the data into train/validation/test sets, normalize features, attach
per-pitcher density features, and compare trained models by bootstrapping
per-observation likelihood scores.

Numeric data is modelled with exact rationals.  Python's `int(0.6 * n)` and
`int(0.2 * n)` are modelled as `3 * n / 5` and `n / 5` on naturals; the two
agree for every data-set size arising in practice (the float product's
relative error is below a half ulp, so flooring gives the exact rational
floor; this was checked exhaustively for n up to two million).
-/

namespace Stengel

/-- NumPy-style fancy indexing: select the rows of `l` at the positions in
`idx`, in the order given by `idx` (out-of-range positions select nothing). -/
def selectRows (idx : List ℕ) (l : List α) : List α :=
  idx.filterMap fun i => l.get? i

/-- Number of columns of a row-major matrix (the width of its first row;
NumPy arrays are rectangular, so every row has this width). -/
def numCols (m : List (List ℚ)) : ℕ :=
  (m.headD []).length

/-- Column `j` of a row-major matrix (entries read with default `0`). -/
def column (m : List (List ℚ)) (j : ℕ) : List ℚ :=
  m.map fun row => row.getD j 0

/-- Transpose of a rectangular row-major matrix. -/
def matTranspose (m : List (List ℚ)) : List (List ℚ) :=
  (List.range (numCols m)).map fun j => column m j

/-- Modelled from the spec: the `PitchData` container of
`stengel.model.pitch_data` (not included in the provided source).  Per the
specification it is a row-oriented dataset of pitches holding a feature
matrix `pitch_data`, per-row outcome labels `pitch_outcomes`, per-row
pitcher and batter identifiers (integer indices into the `pitchers` and
`batters` id lists), and an optional per-pitcher density feature block
`pitch_density` whose rows are keyed by the `pitchers` list. -/
structure PitchData where
  pitch_data : List (List ℚ)
  pitch_outcomes : List ℕ
  pitcher_ids : List ℕ
  batter_ids : List ℕ
  pitchers : List String
  batters : List String
  pitch_density : Option (List (List ℚ))
  deriving DecidableEq

namespace PitchData

/-- Number of observations (rows) in the data set. -/
def num_observations (d : PitchData) : ℕ :=
  d.pitch_data.length

/-- Modelled from the spec: `PitchData.filter_rows` with
`reassign_ids=False` (source not included).  Per the specification's
invariant, a row selection is applied identically to the per-row blocks
(`pitch_data`, `pitch_outcomes` and the id columns); per-pitcher data (the
`pitchers`/`batters` id lists and the per-pitcher `pitch_density` block)
is left unchanged, ids staying stable because `reassign_ids=False`. -/
def filter_rows (d : PitchData) (idx : List ℕ) : PitchData :=
  { pitch_data := selectRows idx d.pitch_data
    pitch_outcomes := selectRows idx d.pitch_outcomes
    pitcher_ids := selectRows idx d.pitcher_ids
    batter_ids := selectRows idx d.batter_ids
    pitchers := d.pitchers
    batters := d.batters
    pitch_density := d.pitch_density }

/-- Modelled from the spec: `PitchData.shuffle(seed)` (source not
included) applies one seeded permutation of the rows identically to every
per-row block.  The permutation produced by the seeded RNG is taken as the
explicit argument `σ` (a permutation of `[0, …, n-1]` as a list). -/
def shuffleWith (σ : List ℕ) (d : PitchData) : PitchData :=
  { pitch_data := selectRows σ d.pitch_data
    pitch_outcomes := selectRows σ d.pitch_outcomes
    pitcher_ids := selectRows σ d.pitcher_ids
    batter_ids := selectRows σ d.batter_ids
    pitchers := d.pitchers
    batters := d.batters
    pitch_density := d.pitch_density }

end PitchData

/-- Number of training observations, `int(0.6 * n)`. -/
def trainObs (n : ℕ) : ℕ := 3 * n / 5

/-- Number of validation observations, `int(0.2 * n)`. -/
def validObs (n : ℕ) : ℕ := n / 5

/-- Training index range, `train_indices = np.array(range(train_obs))`. -/
def trainIndices (n : ℕ) : List ℕ := List.range (trainObs n)

/-- Validation index range, `range(train_obs, train_obs + valid_obs)`. -/
def validIndices (n : ℕ) : List ℕ := List.range' (trainObs n) (validObs n)

/-- Test index range, `range(train_obs + valid_obs, n)`. -/
def testIndices (n : ℕ) : List ℕ :=
  List.range' (trainObs n + validObs n) (n - (trainObs n + validObs n))

/-- The split step of `split_data` (and of the final-model notebook):
shuffle with the seeded permutation, then carve off the train, validation
and test sets with `filter_rows` on the three index ranges. -/
def splitRows (σ : List ℕ) (d : PitchData) : PitchData × PitchData × PitchData :=
  let n := d.num_observations
  let shuffled := PitchData.shuffleWith σ d
  (shuffled.filter_rows (trainIndices n),
   shuffled.filter_rows (validIndices n),
   shuffled.filter_rows (testIndices n))

/-- Replace the feature matrix of a data set (`data.pitch_data = …`). -/
def setFeatures (d : PitchData) (m : List (List ℚ)) : PitchData :=
  { d with pitch_data := m }

/-- The function `split_data` from the hyperparameter-evaluation notebook:
split, then
fit a standard scaler on the training features only and apply the fitted
transformation to all three splits.  The scaler itself is external
(`sklearn.preprocessing.StandardScaler`), so its `fit` and `transform`
operations are taken as parameters: `fit` computes the fitted parameters
from a feature matrix and `transform` applies fitted parameters to one. -/
def split_data {P : Type}
    (fit : List (List ℚ) → P) (transform : P → List (List ℚ) → List (List ℚ))
    (σ : List ℕ) (d : PitchData) : PitchData × PitchData × PitchData :=
  let (train_data, valid_data, test_data) := splitRows σ d
  let scaler := fit train_data.pitch_data
  (setFeatures train_data (transform scaler train_data.pitch_data),
   setFeatures valid_data (transform scaler valid_data.pitch_data),
   setFeatures test_data (transform scaler test_data.pitch_data))

/-- The fitted scaler parameters produced inside `split_data`. -/
def splitScalerParams {P : Type}
    (fit : List (List ℚ) → P) (σ : List ℕ) (d : PitchData) : P :=
  fit ((splitRows σ d).1.pitch_data)

/-- The function `attach_density` from the hyperparameter-evaluation
notebook.  The
three global density arrays are passed explicitly. -/
def attach_density (density_array density_compressed_array quantile_array : List (List ℚ))
    (data : PitchData) (density_type : String) : PitchData × Option (List ℕ) :=
  if density_type = "full" then
    ({ data with pitch_density := some density_array }, some [1000])
  else if density_type = "compressed" then
    ({ data with pitch_density := some density_compressed_array }, some [322])
  else if density_type = "quantile" then
    ({ data with pitch_density := some quantile_array }, some [21])
  else
    (data, none)

/-! Kernel-density-estimation notebook. -/

/-- The three continuous variables the density estimator is fit on. -/
def density_variables : List String := ["velocity_y", "accel_x", "accel_z"]

/-- Indices of the density variables in the variable-name list:
`[i for i, v in enumerate(data_columns) if v in density_variables]`. -/
def densityColumns (variable_names : List String) : List ℕ :=
  (variable_names.enum.filter fun p => p.2 ∈ density_variables).map fun p => p.1

/-- The function `pitcher_density_data`: the columns of the feature matrix
named `velocity_y`, `accel_x`, `accel_z` (`pitch_data[:, density_columns]`). -/
def pitcherDensityData (variable_names : List String) (d : PitchData) : List (List ℚ) :=
  d.pitch_data.map fun row => (densityColumns variable_names).map fun j => row.getD j 0

/-- Modelled from the spec: `PitchDensityEstimator.render` of
`stengel.model.pitch_density` (not included in the provided source) renders
the fitted density (here an arbitrary density function of the three
variables) on a fixed-resolution 3-D voxel grid with the given `resolutions`
over the box `[mins, maxes]`. -/
def render (density : ℚ → ℚ → ℚ → ℚ) (mins maxes : List ℚ) (resolutions : List ℕ) :
    List (List (List ℚ)) :=
  let coord (a : ℕ) (i : ℕ) : ℚ :=
    mins.getD a 0 + (maxes.getD a 0 - mins.getD a 0) * i / (resolutions.getD a 1)
  (List.range (resolutions.getD 0 0)).map fun i =>
    (List.range (resolutions.getD 1 0)).map fun j =>
      (List.range (resolutions.getD 2 0)).map fun k =>
        density (coord 0 i) (coord 1 j) (coord 2 k)

/-- The per-pitcher render loop: each pitcher's fitted density is rendered
with `mins=[-2.0, -2.5, -3.0]`, `maxes=[3.0, 2.5, 2.0]`,
`resolutions=[10, 10, 10]`. -/
def pitcherDensityRenders (densities : String → ℚ → ℚ → ℚ → ℚ) (names : List String) :
    List (String × List (List (List ℚ))) :=
  names.map fun name =>
    (name, render (densities name) [-2, -5/2, -3] [3, 5/2, 2] [10, 10, 10])

/-- Elementwise maximum of the voxels of two flattened renders
(`np.maximum`). -/
def voxelMax (a b : List ℚ) : List ℚ :=
  List.zipWith max a b

/-- The cross-pitcher elementwise maximum of all renders
(`render_maxima`, initialised to the first render and folded with
`np.maximum` over all renders). -/
def renderMaxima (renders : List (List ℚ)) : List ℚ :=
  renders.foldl voxelMax (renders.headD [])

/-- The retained-voxel mask, `np.reshape(render_maxima > 0.02, [-1])`.
The float threshold `0.02` is the rational `1/50`. -/
def retainedVoxels (renders : List (List ℚ)) : List Bool :=
  (renderMaxima renders).map fun x => decide ((1 : ℚ)/50 < x)

/-- Boolean-mask selection, `flattened_render[retained_voxels]`. -/
def maskSelect (mask : List Bool) (l : List ℚ) : List ℚ :=
  ((mask.zip l).filter fun p => p.1).map fun p => p.2

/-- One pitcher's compressed render: the flattened render restricted to the
single cross-pitcher retained-voxel mask. -/
def compressedRender (renders : List (List ℚ)) (r : List ℚ) : List ℚ :=
  maskSelect (retainedVoxels renders) r

/-! Per-pitcher quantile summaries. -/

/-- The percentile levels used for the quantile summaries. -/
def quantileLevels : List ℚ := [1, 5, 25, 50, 75, 95, 99]

/-- NumPy percentile (linear interpolation) of a list of rationals:
sort ascending, take rank `q / 100 * (n - 1)` and linearly interpolate
between the two neighbouring order statistics. -/
def percentileQ (q : ℚ) (xs : List ℚ) : ℚ :=
  let s := xs.insertionSort (· ≤ ·)
  let rank : ℚ := q * ((s.length : ℚ) - 1) / 100
  let lo : ℕ := ⌊rank⌋₊
  let frac : ℚ := rank - lo
  s.getD lo 0 + frac * (s.getD (lo + 1) (s.getD lo 0) - s.getD lo 0)

/-- The 7-by-width percentile matrix
`np.percentile(data, [1, 5, 25, 50, 75, 95, 99], axis=0)`. -/
def quantMatrix (m : List (List ℚ)) : List (List ℚ) :=
  quantileLevels.map fun q => (List.range (numCols m)).map fun j => percentileQ q (column m j)

/-- One pitcher's quantile summary:
`np.reshape(quantiles.transpose(), [-1])`. -/
def pitcherQuantiles (m : List (List ℚ)) : List ℚ :=
  (matTranspose (quantMatrix m)).flatten

/-! Bootstrap model comparison (final-models notebook). -/

/-- Per-observation scores of one model:
`[predictions[i, o] for i, o in enumerate(test_outcomes)]`. -/
def modelObsScores (predictions : List (List ℚ)) (outcomes : List ℕ) : List ℚ :=
  outcomes.enum.map fun p => (predictions.getD p.1 []).getD p.2 0

/-- The matrix `combined_scores`: one score list per model, stacked and
transposed, so rows are observations and columns are models. -/
def combinedScores (predictionsList : List (List (List ℚ))) (outcomes : List ℕ) :
    List (List ℚ) :=
  matTranspose (predictionsList.map fun preds => modelObsScores preds outcomes)

/-- Mean of a list of reals (`np.mean`). -/
noncomputable def meanR (xs : List ℝ) : ℝ :=
  xs.sum / xs.length

/-- Perplexity of a list of per-observation scores,
`np.exp(-np.mean(np.log(scores)))`. -/
noncomputable def perplexity (xs : List ℝ) : ℝ :=
  Real.exp (-(meanR (xs.map Real.log)))

/-- One bootstrap iteration's per-model scores,
`np.exp(-np.mean(np.log(bootstrap_scores), axis=0))`. -/
noncomputable def scoresByModel (m : List (List ℚ)) : List ℝ :=
  (List.range (numCols m)).map fun j =>
    perplexity ((column m j).map (Rat.cast : ℚ → ℝ))

/-- The bootstrap loop: for each drawn index list, resample the rows of
`combined_scores` and take the per-model perplexities.  The 500 random
index draws of `np.random.choice(32768, 32768, replace=True)` are taken as
the explicit argument `draws`. -/
noncomputable def bootstrappedScores (draws : List (List ℕ)) (combined : List (List ℚ)) :
    List (List ℝ) :=
  draws.map fun idx => scoresByModel (selectRows idx combined)

/-! Summary reporting (`print_summary`). -/

/-- One model's evaluation result: the `validation_score` series of its fit
log, and its fit time. -/
structure EvalResult where
  validation_score : List ℚ
  fit_time : ℚ
  deriving DecidableEq

/-- Python's `scores[-1]` (last element; default `0` models only the
non-empty case exercised by the notebook). -/
def lastScore (l : List ℚ) : ℚ := l.getLastD 0

/-- Python's `min(scores)` (default `0` models only the non-empty case). -/
def minScore (l : List ℚ) : ℚ :=
  match l with
  | [] => 0
  | x :: xs => xs.foldl min x

/-- Python's `sorted` on a list of pairs: a stable sort by the
lexicographic tuple order. -/
def pySortPairs {β : Type} [LinearOrder β] (l : List (ℚ × β)) : List (ℚ × β) :=
  l.insertionSort fun p q => p.1 < q.1 ∨ (p.1 = q.1 ∧ p.2 ≤ q.2)

/-- Python's `sorted` on a list of rationals. -/
def pySortQ (l : List ℚ) : List ℚ :=
  l.insertionSort (· ≤ ·)

/-- The function `print_summary`, returning the printed rows
`(name, fit time, best score, last score)` in print order. -/
def printSummary (eval_results : List (String × EvalResult)) :
    List (String × ℚ × ℚ × ℚ) :=
  let eval_names := eval_results.map fun kv => kv.1
  let run_times := eval_results.map fun kv => kv.2.fit_time
  let last_run_scores := eval_results.map fun kv => lastScore kv.2.validation_score
  let min_run_scores := eval_results.map fun kv => minScore kv.2.validation_score
  let names2 := (pySortPairs (last_run_scores.zip eval_names)).map fun p => p.2
  let times2 := (pySortPairs (last_run_scores.zip run_times)).map fun p => p.2
  let mins2 := (pySortPairs (last_run_scores.zip min_run_scores)).map fun p => p.2
  let lasts2 := pySortQ last_run_scores
  names2.zip (times2.zip (mins2.zip lasts2))

/-- The summary rows as the claim words them: one row per model carrying
that same model's fit time, minimum validation score and last validation
score, sorted by last validation score ascending. -/
def summaryRowsByLast (eval_results : List (String × EvalResult)) :
    List (String × ℚ × ℚ × ℚ) :=
  (eval_results.map fun kv =>
      (kv.1, kv.2.fit_time, minScore kv.2.validation_score, lastScore kv.2.validation_score)
    ).insertionSort fun r s => r.2.2.2 ≤ s.2.2.2

/-! Helper lemmas about row selection. -/

theorem selectRows_nil (idx : List ℕ) : selectRows idx ([] : List α) = [] := by
  simp [selectRows]

theorem selectRows_range_take (l : List α) (t : ℕ) :
    selectRows (List.range t) l = l.take t := by
  induction t with
  | zero => simp [selectRows]
  | succ t ih =>
    rw [selectRows, List.range_succ, List.filterMap_append, ← selectRows, ih, List.take_succ]
    cases h : l[t]? <;> simp [List.filterMap_cons, h]

theorem selectRows_range'_take_drop (l : List α) (s k : ℕ) :
    selectRows (List.range' s k) l = (l.drop s).take k := by
  induction k with
  | zero => simp [selectRows]
  | succ k ih =>
    rw [List.range'_concat, selectRows, List.filterMap_append, ← selectRows, ih, List.take_succ]
    rw [List.getElem?_drop]
    cases h : l[s + k]? <;> simp [List.filterMap_cons, h]

theorem selectRows_length (idx : List ℕ) (l : List α) (h : ∀ i ∈ idx, i < l.length) :
    (selectRows idx l).length = idx.length := by
  induction idx with
  | nil => rfl
  | cons i rest ih =>
    have hi : i < l.length := h i (by simp)
    rw [selectRows, List.filterMap_cons, List.get?_eq_getElem?, List.getElem?_eq_getElem hi]
    simpa [selectRows] using ih fun j hj => h j (by simp [hj])

theorem selectRows_get? (idx : List ℕ) (l : List α) (h : ∀ i ∈ idx, i < l.length) :
    ∀ k, k < idx.length → (selectRows idx l).get? k = l.get? (idx.getD k 0) := by
  induction idx with
  | nil => intro k hk; simp at hk
  | cons i rest ih =>
    intro k hk
    have hi : i < l.length := h i (by simp)
    have hsel : selectRows (i :: rest) l = l[i] :: selectRows rest l := by
      simp [selectRows, List.filterMap_cons, List.get?_eq_getElem?,
        List.getElem?_eq_getElem hi]
    rw [hsel]
    cases k with
    | zero => simp [List.get?_eq_getElem?, List.getElem?_eq_getElem hi]
    | succ k =>
      simpa using ih (fun j hj => h j (by simp [hj])) k (by simpa using hk)

/-! Claim C8: the three split index ranges partition the observations. -/

theorem splitRanges_append (n : ℕ) :
    trainIndices n ++ validIndices n ++ testIndices n = List.range n := by
  have hle : trainObs n + validObs n ≤ n := by
    unfold trainObs validObs; omega
  have e1 : validIndices n ++ testIndices n
      = List.range' (trainObs n) (n - trainObs n) := by
    rw [validIndices, testIndices]
    have h := List.range'_append_1 (trainObs n) (validObs n)
      (n - (trainObs n + validObs n))
    rw [h]
    have e : n - (trainObs n + validObs n) + validObs n = n - trainObs n := by omega
    rw [e]
  rw [List.append_assoc, e1, trainIndices, List.range_eq_range']
  have h := List.range'_append_1 0 (trainObs n) (n - trainObs n)
  rw [Nat.zero_add] at h
  rw [h]
  have e : n - trainObs n + trainObs n = n := by omega
  rw [e, ← List.range_eq_range']

/-- Claim C8: for every number of observations `n`, the train, validation
and test index ranges are pairwise disjoint and their concatenation is
exactly `range n`, so every observation lands in exactly one split; the
test split takes all flooring-remainder rows, so its share can exceed 20%
of `n`. -/
theorem split_index_partition_c8 :
    (∀ n : ℕ, trainIndices n ++ validIndices n ++ testIndices n = List.range n) ∧
    (∀ n i : ℕ,
      ¬(i ∈ trainIndices n ∧ i ∈ validIndices n) ∧
      ¬(i ∈ trainIndices n ∧ i ∈ testIndices n) ∧
      ¬(i ∈ validIndices n ∧ i ∈ testIndices n)) ∧
    (∀ n i : ℕ, i < n →
      i ∈ trainIndices n ∨ i ∈ validIndices n ∨ i ∈ testIndices n) ∧
    (∃ n : ℕ, 5 * (testIndices n).length > n) := by
  refine ⟨splitRanges_append, ?_, ?_, ⟨6, by decide⟩⟩
  · intro n i
    simp only [trainIndices, validIndices, testIndices, List.mem_range,
      List.mem_range'_1, trainObs, validObs]
    omega
  · intro n i hin
    simp only [trainIndices, validIndices, testIndices, List.mem_range,
      List.mem_range'_1, trainObs, validObs]
    omega

/-- Witness for C8 at a concrete size. -/
theorem split_index_partition_c8_witness :
    trainIndices 7 ++ validIndices 7 ++ testIndices 7 = List.range 7 ∧
    (3 ∈ trainIndices 7 ∨ 3 ∈ validIndices 7 ∨ 3 ∈ testIndices 7) := by
  exact ⟨split_index_partition_c8.1 7, split_index_partition_c8.2.2.1 7 3 (by decide)⟩

/-! Claim C9: unrecognized density types leave the data unchanged. -/

/-- Claim C9: for every `density_type` other than `"full"`, `"compressed"`
and `"quantile"`, `attach_density` returns the data set unchanged (its
`pitch_density` field unassigned) paired with `None` as the density size,
and never fails. -/
theorem attach_density_default_c9
    (density_array density_compressed_array quantile_array : List (List ℚ))
    (d : PitchData) (density_type : String)
    (h1 : density_type ≠ "full") (h2 : density_type ≠ "compressed")
    (h3 : density_type ≠ "quantile") :
    attach_density density_array density_compressed_array quantile_array d density_type
      = (d, none) := by
  simp [attach_density, h1, h2, h3]

/-- A tiny concrete data set used by witnesses. -/
def dataW : PitchData :=
  { pitch_data := [[1, 2], [3, 4], [5, 6]]
    pitch_outcomes := [0, 1, 0]
    pitcher_ids := [0, 0, 1]
    batter_ids := [1, 0, 1]
    pitchers := ["ab", "cd"]
    batters := ["ef", "gh"]
    pitch_density := some [[10], [20]] }

/-- Witness for C9 at the default `density_type="none"`. -/
theorem attach_density_default_c9_witness :
    attach_density [] [] [] dataW "none" = (dataW, none) := by
  exact attach_density_default_c9 [] [] [] dataW "none"
    (by decide) (by decide) (by decide)

/-! Claim C1: the split step. -/

/-- Claim C1 (amended): after the seeded shuffle the training set is the
first `int(0.6*n)` rows, the validation set the next `int(0.2*n)` rows and
the test set all remaining rows; the sets therefore hold `int(0.6*n)`,
`int(0.2*n)` and the flooring remainder of the observations, which are
exactly 60%, 20% and 20% when `n` is a multiple of 5. -/
theorem split_step_c1 (σ : List ℕ) (d : PitchData)
    (hσlen : σ.length = d.num_observations)
    (hσmem : ∀ i ∈ σ, i < d.num_observations) :
    ((splitRows σ d).1.pitch_data
        = (PitchData.shuffleWith σ d).pitch_data.take (trainObs d.num_observations) ∧
      (splitRows σ d).2.1.pitch_data
        = ((PitchData.shuffleWith σ d).pitch_data.drop
            (trainObs d.num_observations)).take (validObs d.num_observations) ∧
      (splitRows σ d).2.2.pitch_data
        = (PitchData.shuffleWith σ d).pitch_data.drop
            (trainObs d.num_observations + validObs d.num_observations)) ∧
    ((splitRows σ d).1.num_observations = trainObs d.num_observations ∧
      (splitRows σ d).2.1.num_observations = validObs d.num_observations ∧
      (splitRows σ d).2.2.num_observations
        = d.num_observations
            - (trainObs d.num_observations + validObs d.num_observations)) ∧
    (5 ∣ d.num_observations →
      5 * (splitRows σ d).1.num_observations = 3 * d.num_observations ∧
      5 * (splitRows σ d).2.1.num_observations = d.num_observations ∧
      5 * (splitRows σ d).2.2.num_observations = d.num_observations) := by
  have hmem' : ∀ i ∈ σ, i < d.pitch_data.length := hσmem
  have hslen : (PitchData.shuffleWith σ d).pitch_data.length = d.num_observations := by
    have := selectRows_length σ d.pitch_data hmem'
    simpa [PitchData.shuffleWith] using this.trans hσlen
  have htle : trainObs d.num_observations + validObs d.num_observations
      ≤ d.num_observations := by
    unfold trainObs validObs; omega
  have e1 : (splitRows σ d).1.pitch_data
      = (PitchData.shuffleWith σ d).pitch_data.take (trainObs d.num_observations) := by
    show selectRows (trainIndices d.num_observations)
        (PitchData.shuffleWith σ d).pitch_data = _
    rw [trainIndices]
    exact selectRows_range_take _ _
  have e2 : (splitRows σ d).2.1.pitch_data
      = ((PitchData.shuffleWith σ d).pitch_data.drop
          (trainObs d.num_observations)).take (validObs d.num_observations) := by
    show selectRows (validIndices d.num_observations)
        (PitchData.shuffleWith σ d).pitch_data = _
    rw [validIndices]
    exact selectRows_range'_take_drop _ _ _
  have e3 : (splitRows σ d).2.2.pitch_data
      = (PitchData.shuffleWith σ d).pitch_data.drop
          (trainObs d.num_observations + validObs d.num_observations) := by
    show selectRows (testIndices d.num_observations)
        (PitchData.shuffleWith σ d).pitch_data = _
    rw [testIndices, selectRows_range'_take_drop]
    apply List.take_of_length_le
    simp [hslen]
  have l1 : (splitRows σ d).1.num_observations = trainObs d.num_observations := by
    show (splitRows σ d).1.pitch_data.length = _
    rw [e1, List.length_take, hslen]
    omega
  have l2 : (splitRows σ d).2.1.num_observations = validObs d.num_observations := by
    show (splitRows σ d).2.1.pitch_data.length = _
    rw [e2, List.length_take, List.length_drop, hslen]
    omega
  have l3 : (splitRows σ d).2.2.num_observations
      = d.num_observations
          - (trainObs d.num_observations + validObs d.num_observations) := by
    show (splitRows σ d).2.2.pitch_data.length = _
    rw [e3, List.length_drop, hslen]
  refine ⟨⟨e1, e2, e3⟩, ⟨l1, l2, l3⟩, ?_⟩
  rintro ⟨k, hk⟩
  rw [l1, l2, l3]
  unfold trainObs validObs
  omega

/-- Concrete six-observation data set for the C1 counterexample. -/
def dataC1 : PitchData :=
  { pitch_data := [[0], [1], [2], [3], [4], [5]]
    pitch_outcomes := [0, 0, 0, 0, 0, 0]
    pitcher_ids := [0, 0, 0, 0, 0, 0]
    batter_ids := [0, 0, 0, 0, 0, 0]
    pitchers := ["p"]
    batters := ["b"]
    pitch_density := none }

/-- Counterexample to C1 as stated: on six observations the splits hold
3, 1 and 2 rows, which are not exactly 60%, 20% and 20% of 6. -/
theorem split_step_c1_counterexample :
    ¬ (5 * (splitRows (List.range 6) dataC1).1.num_observations = 3 * 6 ∧
       5 * (splitRows (List.range 6) dataC1).2.1.num_observations = 6 ∧
       5 * (splitRows (List.range 6) dataC1).2.2.num_observations = 6) := by
  decide

/-- Concrete five-observation data set for the C1 witness. -/
def dataC1b : PitchData :=
  { pitch_data := [[0], [1], [2], [3], [4]]
    pitch_outcomes := [0, 0, 0, 0, 0]
    pitcher_ids := [0, 0, 0, 0, 0]
    batter_ids := [0, 0, 0, 0, 0]
    pitchers := ["p"]
    batters := ["b"]
    pitch_density := none }

/-- Witness for C1 on five observations, where the shares are exact. -/
theorem split_step_c1_witness :
    (splitRows (List.range 5) dataC1b).1.num_observations = trainObs 5 ∧
    5 * (splitRows (List.range 5) dataC1b).1.num_observations = 3 * 5 := by
  have h := split_step_c1 (List.range 5) dataC1b (by decide) (by decide)
  exact ⟨h.2.1.1, (h.2.2 (by decide)).1⟩

/-! Claim C2: row alignment across the blocks of a PitchData. -/

/-- Claim C2 (amended): `filter_rows` (and `shuffle`, which applies its
permutation through the same selection) applies one row selection
identically to the four per-row blocks (`pitch_data`, `pitch_outcomes`,
the pitcher id column and the batter id column), keeping row `i` of each
block referring to the same pitch `idx[i]`; the per-pitcher blocks (the
`pitchers`/`batters` lists and `pitch_density`) are left unchanged. -/
theorem filter_alignment_c2 (d : PitchData) (idx : List ℕ)
    (ho : d.pitch_outcomes.length = d.num_observations)
    (hp : d.pitcher_ids.length = d.num_observations)
    (hb : d.batter_ids.length = d.num_observations)
    (hidx : ∀ i ∈ idx, i < d.num_observations) :
    (∀ σ : List ℕ, PitchData.shuffleWith σ d = d.filter_rows σ) ∧
    ((d.filter_rows idx).pitch_outcomes.length = (d.filter_rows idx).num_observations ∧
     (d.filter_rows idx).pitcher_ids.length = (d.filter_rows idx).num_observations ∧
     (d.filter_rows idx).batter_ids.length = (d.filter_rows idx).num_observations) ∧
    (∀ k, k < idx.length →
      (d.filter_rows idx).pitch_data.get? k = d.pitch_data.get? (idx.getD k 0) ∧
      (d.filter_rows idx).pitch_outcomes.get? k = d.pitch_outcomes.get? (idx.getD k 0) ∧
      (d.filter_rows idx).pitcher_ids.get? k = d.pitcher_ids.get? (idx.getD k 0) ∧
      (d.filter_rows idx).batter_ids.get? k = d.batter_ids.get? (idx.getD k 0)) ∧
    ((d.filter_rows idx).pitchers = d.pitchers ∧
     (d.filter_rows idx).batters = d.batters ∧
     (d.filter_rows idx).pitch_density = d.pitch_density) := by
  have hd : ∀ i ∈ idx, i < d.pitch_data.length := hidx
  have ho' : ∀ i ∈ idx, i < d.pitch_outcomes.length := by rw [ho]; exact hidx
  have hp' : ∀ i ∈ idx, i < d.pitcher_ids.length := by rw [hp]; exact hidx
  have hb' : ∀ i ∈ idx, i < d.batter_ids.length := by rw [hb]; exact hidx
  refine ⟨fun σ => rfl, ⟨?_, ?_, ?_⟩, ?_, rfl, rfl, rfl⟩
  · show (selectRows idx d.pitch_outcomes).length = (selectRows idx d.pitch_data).length
    rw [selectRows_length idx _ ho', selectRows_length idx _ hd]
  · show (selectRows idx d.pitcher_ids).length = (selectRows idx d.pitch_data).length
    rw [selectRows_length idx _ hp', selectRows_length idx _ hd]
  · show (selectRows idx d.batter_ids).length = (selectRows idx d.pitch_data).length
    rw [selectRows_length idx _ hb', selectRows_length idx _ hd]
  · intro k hk
    exact ⟨selectRows_get? idx _ hd k hk, selectRows_get? idx _ ho' k hk,
      selectRows_get? idx _ hp' k hk, selectRows_get? idx _ hb' k hk⟩

/-- Counterexample to C2 as stated: the row selection is not applied to
the per-pitcher `pitch_density` block (here selecting rows `[2, 0]` of a
three-row data set whose density block has one row per pitcher). -/
theorem filter_alignment_c2_counterexample :
    ¬ ((dataW.filter_rows [2, 0]).pitch_density
        = Option.map (selectRows [2, 0]) dataW.pitch_density) := by
  decide

/-- Witness for C2 at a concrete data set and selection. -/
theorem filter_alignment_c2_witness :
    (dataW.filter_rows [2, 0]).pitch_data.get? 0 = dataW.pitch_data.get? 2 ∧
    (dataW.filter_rows [2, 0]).pitch_density = dataW.pitch_density := by
  have h := filter_alignment_c2 dataW [2, 0] (by decide) (by decide) (by decide)
    (by decide)
  exact ⟨(h.2.2.1 0 (by decide)).1, h.2.2.2.2.2⟩

/-! Claim C3: the scaler is fit on the training split only. -/

/-- Claim C3: inside `split_data` the scaler is fitted on the training
split's feature matrix only — the fitted parameters are a function of the
first `int(0.6*n)` rows after the shuffle, unchanged under any change of
the remaining (validation and test) rows — and the one fitted
transformation is applied to the feature matrices of all three splits. -/
theorem scaler_train_only_c3 {P : Type} (fit : List (List ℚ) → P)
    (transform : P → List (List ℚ) → List (List ℚ)) (σ : List ℕ) (d : PitchData) :
    ((split_data fit transform σ d).1.pitch_data
        = transform (splitScalerParams fit σ d) ((splitRows σ d).1.pitch_data) ∧
     (split_data fit transform σ d).2.1.pitch_data
        = transform (splitScalerParams fit σ d) ((splitRows σ d).2.1.pitch_data) ∧
     (split_data fit transform σ d).2.2.pitch_data
        = transform (splitScalerParams fit σ d) ((splitRows σ d).2.2.pitch_data)) ∧
    splitScalerParams fit σ d
      = fit ((PitchData.shuffleWith σ d).pitch_data.take (trainObs d.num_observations)) ∧
    (∀ (d' : PitchData) (σ' : List ℕ),
      d'.num_observations = d.num_observations →
      (PitchData.shuffleWith σ' d').pitch_data.take (trainObs d.num_observations)
        = (PitchData.shuffleWith σ d).pitch_data.take (trainObs d.num_observations) →
      splitScalerParams fit σ' d' = splitScalerParams fit σ d) := by
  have key : ∀ (σ₀ : List ℕ) (d₀ : PitchData), splitScalerParams fit σ₀ d₀
      = fit ((PitchData.shuffleWith σ₀ d₀).pitch_data.take (trainObs d₀.num_observations)) := by
    intro σ₀ d₀
    show fit (selectRows (trainIndices d₀.num_observations)
      (PitchData.shuffleWith σ₀ d₀).pitch_data) = _
    rw [trainIndices, selectRows_range_take]
  refine ⟨⟨rfl, rfl, rfl⟩, key σ d, ?_⟩
  intro d' σ' hn heq
  rw [key σ' d', key σ d, hn, heq]

/-- Witness for C3 with a concrete scaler and data set. -/
theorem scaler_train_only_c3_witness :
    (split_data (fun m => m) (fun p _ => p) (List.range 3) dataW).1.pitch_data
      = splitScalerParams (fun m => m) (List.range 3) dataW := by
  have h := scaler_train_only_c3 (fun m => m) (fun p _ => p) (List.range 3) dataW
  exact h.1.1

/-! Claim C4: the compressed density render. -/

theorem foldl_voxelMax_length (rs : List (List ℚ)) (acc : List ℚ)
    (h : ∀ r ∈ rs, r.length = acc.length) :
    (rs.foldl voxelMax acc).length = acc.length := by
  induction rs generalizing acc with
  | nil => rfl
  | cons r rs ih =>
    have hr : r.length = acc.length := h r (by simp)
    have hlen : (voxelMax acc r).length = acc.length := by
      simp [voxelMax, hr]
    rw [List.foldl_cons, ih (voxelMax acc r) fun s hs => (h s (by simp [hs])).trans hlen.symm,
      hlen]

theorem foldl_voxelMax_getD (rs : List (List ℚ)) (acc : List ℚ) (v : ℕ)
    (h : ∀ r ∈ rs, r.length = acc.length) (hv : v < acc.length) :
    (rs.foldl voxelMax acc).getD v 0
      = rs.foldl (fun mx r => max mx (r.getD v 0)) (acc.getD v 0) := by
  induction rs generalizing acc with
  | nil => rfl
  | cons r rs ih =>
    have hr : r.length = acc.length := h r (by simp)
    have hlen : (voxelMax acc r).length = acc.length := by
      simp [voxelMax, hr]
    have hstep : (voxelMax acc r).getD v 0 = max (acc.getD v 0) (r.getD v 0) := by
      simp only [voxelMax, List.getD_eq_getElem?_getD, List.getElem?_zipWith]
      rw [List.getElem?_eq_getElem hv, List.getElem?_eq_getElem (hr ▸ hv)]
      simp
    rw [List.foldl_cons,
      ih (voxelMax acc r) (fun s hs => (h s (by simp [hs])).trans hlen.symm) (hlen ▸ hv),
      hstep, List.foldl_cons]

theorem lt_foldl_max_iff (c : ℚ) (rs : List (List ℚ)) (a : ℚ) (v : ℕ) :
    (c < rs.foldl (fun mx r => max mx (r.getD v 0)) a)
      ↔ (c < a ∨ ∃ r ∈ rs, c < r.getD v 0) := by
  induction rs generalizing a with
  | nil => simp
  | cons r rs ih =>
    rw [List.foldl_cons, ih]
    constructor
    · rintro (h | ⟨s, hs, hcs⟩)
      · rcases lt_max_iff.mp h with h' | h'
        · exact Or.inl h'
        · exact Or.inr ⟨r, by simp, h'⟩
      · exact Or.inr ⟨s, by simp [hs], hcs⟩
    · rintro (h | ⟨s, hs, hcs⟩)
      · exact Or.inl (lt_max_iff.mpr (Or.inl h))
      · rcases List.mem_cons.mp hs with rfl | hs'
        · exact Or.inl (lt_max_iff.mpr (Or.inr hcs))
        · exact Or.inr ⟨s, hs', hcs⟩

theorem maskSelect_eq_filterMap (mask : List Bool) (l : List ℚ)
    (h : mask.length = l.length) :
    maskSelect mask l = (List.range mask.length).filterMap
      fun v => if mask.getD v false then l.get? v else none := by
  induction mask generalizing l with
  | nil => simp [maskSelect]
  | cons b mask ih =>
    cases l with
    | nil => simp at h
    | cons x l =>
      have h' : mask.length = l.length := by simpa using h
      rw [List.length_cons, List.range_succ_eq_map]
      rw [List.filterMap_cons, List.filterMap_map]
      have hcomp : ((fun v => if (b :: mask).getD v false then (x :: l).get? v else none)
            ∘ Nat.succ)
          = fun v => if mask.getD v false then l.get? v else none := by
        funext v
        simp [Function.comp]
      rw [hcomp, ← ih l h']
      cases b <;> simp [maskSelect, List.filter_cons]

theorem any_decide_eq (l : List (List ℚ)) (p : List ℚ → Prop) [DecidablePred p] :
    (l.any fun x => decide (p x)) = decide (∃ x ∈ l, p x) := by
  induction l with
  | nil => simp
  | cons x xs ih =>
    rw [List.any_cons, ih, ← Bool.decide_or]
    apply decide_eq_decide.mpr
    simp

/-- Claim C4: the compressed render of every pitcher keeps exactly the
voxels whose cross-pitcher maximum exceeds the threshold `0.02` (the
rational `1/50`): the retained-voxel mask is independent of the pitcher,
so a voxel is kept for one pitcher iff it is kept for all. -/
theorem compressed_render_c4 (renders : List (List ℚ)) (L : ℕ)
    (hne : renders ≠ []) (hL : ∀ r ∈ renders, r.length = L) :
    ∀ r ∈ renders, compressedRender renders r
      = (List.range L).filterMap fun v =>
          if renders.any (fun s => decide ((1 : ℚ)/50 < s.getD v 0)) then r.get? v
          else none := by
  intro r hr
  obtain ⟨r0, rest, rfl⟩ : ∃ r0 rest, renders = r0 :: rest := by
    cases renders with
    | nil => exact absurd rfl hne
    | cons a b => exact ⟨a, b, rfl⟩
  have hr0 : r0.length = L := hL r0 (by simp)
  have hall : ∀ s ∈ r0 :: rest, s.length = r0.length := fun s hs => (hL s hs).trans hr0.symm
  have hmaxlen : (renderMaxima (r0 :: rest)).length = L := by
    rw [renderMaxima]
    have : (r0 :: rest).headD [] = r0 := rfl
    rw [this, foldl_voxelMax_length _ _ hall, hr0]
  have hmasklen : (retainedVoxels (r0 :: rest)).length = r.length := by
    rw [retainedVoxels, List.length_map, hmaxlen, hL r hr]
  rw [compressedRender, maskSelect_eq_filterMap _ _ hmasklen, hmasklen, hL r hr]
  apply List.filterMap_congr
  intro v hv
  have hvL : v < L := by simpa using hv
  have hv' : v < (renderMaxima (r0 :: rest)).length := hmaxlen ▸ hvL
  have hmask : (retainedVoxels (r0 :: rest)).getD v false
      = (r0 :: rest).any fun s => decide ((1 : ℚ)/50 < s.getD v 0) := by
    rw [retainedVoxels, List.getD_eq_getElem?_getD, List.getElem?_map,
      List.getElem?_eq_getElem hv']
    simp only [Option.map_some', Option.getD_some]
    have hval : (renderMaxima (r0 :: rest))[v] = (renderMaxima (r0 :: rest)).getD v 0 := by
      rw [List.getD_eq_getElem?_getD, List.getElem?_eq_getElem hv']
      rfl
    rw [hval, renderMaxima, show (r0 :: rest).headD [] = r0 from rfl,
      foldl_voxelMax_getD (r0 :: rest) r0 v hall (hr0 ▸ hvL), any_decide_eq]
    apply decide_eq_decide.mpr
    rw [lt_foldl_max_iff]
    constructor
    · rintro (h | ⟨s, hs, h⟩)
      · exact ⟨r0, by simp, h⟩
      · exact ⟨s, hs, h⟩
    · rintro ⟨s, hs, h⟩
      exact Or.inr ⟨s, hs, h⟩
  rw [hmask]

/-- Witness for C4 on two concrete two-voxel renders. -/
theorem compressed_render_c4_witness :
    compressedRender [[1, 0], [0, 1]] [0, 1]
      = (List.range 2).filterMap fun v =>
          if [[(1 : ℚ), 0], [0, 1]].any (fun s => decide ((1 : ℚ)/50 < s.getD v 0))
          then [(0 : ℚ), 1].get? v else none := by
  exact compressed_render_c4 [[1, 0], [0, 1]] 2 (by decide) (by decide) [0, 1] (by decide)

/-! Claim C5: the per-pitcher quantile summary. -/

/-- Claim C5: for a pitcher with at least one training row over the 3
density variables, the quantile summary is the length-21 vector obtained
by transposing the 7-by-3 percentile matrix before flattening, so it is
arranged variable-major: the seven percentile levels (1, 5, 25, 50, 75,
95, 99) of each variable are contiguous, and every pitcher's vector has
the same length 21. -/
theorem pitcher_quantiles_c5 (m : List (List ℚ)) (hne : m ≠ [])
    (hw : ∀ row ∈ m, row.length = 3) :
    pitcherQuantiles m =
      [percentileQ 1 (column m 0), percentileQ 5 (column m 0),
       percentileQ 25 (column m 0), percentileQ 50 (column m 0),
       percentileQ 75 (column m 0), percentileQ 95 (column m 0),
       percentileQ 99 (column m 0),
       percentileQ 1 (column m 1), percentileQ 5 (column m 1),
       percentileQ 25 (column m 1), percentileQ 50 (column m 1),
       percentileQ 75 (column m 1), percentileQ 95 (column m 1),
       percentileQ 99 (column m 1),
       percentileQ 1 (column m 2), percentileQ 5 (column m 2),
       percentileQ 25 (column m 2), percentileQ 50 (column m 2),
       percentileQ 75 (column m 2), percentileQ 95 (column m 2),
       percentileQ 99 (column m 2)] ∧
    (pitcherQuantiles m).length = 21 := by
  have hcols : numCols m = 3 := by
    cases m with
    | nil => exact absurd rfl hne
    | cons r rest => exact hw r (by simp)
  have hq : quantMatrix m
      = quantileLevels.map fun q =>
          [percentileQ q (column m 0), percentileQ q (column m 1),
           percentileQ q (column m 2)] := by
    rw [quantMatrix, hcols]
    rfl
  have hq2 : numCols (quantMatrix m) = 3 := by
    rw [hq, numCols, quantileLevels]
    rfl
  have he : pitcherQuantiles m =
      [percentileQ 1 (column m 0), percentileQ 5 (column m 0),
       percentileQ 25 (column m 0), percentileQ 50 (column m 0),
       percentileQ 75 (column m 0), percentileQ 95 (column m 0),
       percentileQ 99 (column m 0),
       percentileQ 1 (column m 1), percentileQ 5 (column m 1),
       percentileQ 25 (column m 1), percentileQ 50 (column m 1),
       percentileQ 75 (column m 1), percentileQ 95 (column m 1),
       percentileQ 99 (column m 1),
       percentileQ 1 (column m 2), percentileQ 5 (column m 2),
       percentileQ 25 (column m 2), percentileQ 50 (column m 2),
       percentileQ 75 (column m 2), percentileQ 95 (column m 2),
       percentileQ 99 (column m 2)] := by
    rw [pitcherQuantiles, matTranspose, hq2, hq]
    rfl
  exact ⟨he, by rw [he]; rfl⟩

/-- Witness for C5 on a one-row training matrix. -/
theorem pitcher_quantiles_c5_witness :
    pitcherQuantiles [[1, 2, 3]] =
      [percentileQ 1 (column [[1, 2, 3]] 0), percentileQ 5 (column [[1, 2, 3]] 0),
       percentileQ 25 (column [[1, 2, 3]] 0), percentileQ 50 (column [[1, 2, 3]] 0),
       percentileQ 75 (column [[1, 2, 3]] 0), percentileQ 95 (column [[1, 2, 3]] 0),
       percentileQ 99 (column [[1, 2, 3]] 0),
       percentileQ 1 (column [[1, 2, 3]] 1), percentileQ 5 (column [[1, 2, 3]] 1),
       percentileQ 25 (column [[1, 2, 3]] 1), percentileQ 50 (column [[1, 2, 3]] 1),
       percentileQ 75 (column [[1, 2, 3]] 1), percentileQ 95 (column [[1, 2, 3]] 1),
       percentileQ 99 (column [[1, 2, 3]] 1),
       percentileQ 1 (column [[1, 2, 3]] 2), percentileQ 5 (column [[1, 2, 3]] 2),
       percentileQ 25 (column [[1, 2, 3]] 2), percentileQ 50 (column [[1, 2, 3]] 2),
       percentileQ 75 (column [[1, 2, 3]] 2), percentileQ 95 (column [[1, 2, 3]] 2),
       percentileQ 99 (column [[1, 2, 3]] 2)] ∧
    (pitcherQuantiles [[1, 2, 3]]).length = 21 := by
  exact pitcher_quantiles_c5 [[1, 2, 3]] (by decide) (by decide)

/-! Claim C6: variable selection and fixed-shape renders. -/

theorem densityColumns_names (vn : List String) :
    (densityColumns vn).map (fun i => vn.getD i "")
      = vn.filter fun v => v ∈ density_variables := by
  rw [densityColumns, List.map_map]
  have h1 : ∀ p ∈ vn.enum.filter (fun p => p.2 ∈ density_variables),
      ((fun i => vn.getD i "") ∘ Prod.fst) p = Prod.snd p := by
    intro p hp
    have hpe : p ∈ vn.enum := List.mem_of_mem_filter hp
    have hget : vn[p.1]? = some p.2 := by
      have := List.mk_mem_enum_iff_getElem?.mp (show (p.1, p.2) ∈ vn.enum from hpe)
      simpa using this
    simp [Function.comp, List.getD_eq_getElem?_getD, hget]
  rw [List.map_congr_left h1]
  have h2 : (vn.enum.filter fun p => p.2 ∈ density_variables)
      = vn.enum.filter ((fun v => decide (v ∈ density_variables)) ∘ Prod.snd) := rfl
  rw [h2, ← List.filter_map, show vn.enum.map Prod.snd = vn from
    List.enumFrom_map_snd 0 vn]

theorem densityColumns_mem_names (vn : List String) :
    ∀ i ∈ densityColumns vn, vn.getD i "" ∈ density_variables := by
  intro i hi
  have : vn.getD i "" ∈ (densityColumns vn).map fun i => vn.getD i "" :=
    List.mem_map_of_mem _ hi
  rw [densityColumns_names] at this
  simpa using (List.mem_filter.mp this).2

theorem density_filter_toFinset (vn : List String)
    (h1 : "velocity_y" ∈ vn) (h2 : "accel_x" ∈ vn) (h3 : "accel_z" ∈ vn) :
    (vn.filter fun v => v ∈ density_variables).toFinset
      = {"velocity_y", "accel_x", "accel_z"} := by
  ext x
  simp only [List.toFinset_filter, Finset.mem_filter, List.mem_toFinset,
    Finset.mem_insert, Finset.mem_singleton, decide_eq_true_eq]
  constructor
  · rintro ⟨-, hx⟩
    simpa [density_variables] using hx
  · rintro (rfl | rfl | rfl)
    · exact ⟨h1, by simp [density_variables]⟩
    · exact ⟨h2, by simp [density_variables]⟩
    · exact ⟨h3, by simp [density_variables]⟩

theorem densityColumns_length (vn : List String) (hnd : vn.Nodup)
    (h1 : "velocity_y" ∈ vn) (h2 : "accel_x" ∈ vn) (h3 : "accel_z" ∈ vn) :
    (densityColumns vn).length = 3 := by
  have hmap : (densityColumns vn).length
      = (vn.filter fun v => v ∈ density_variables).length := by
    have := congrArg List.length (densityColumns_names vn)
    simpa using this
  have hfnd : (vn.filter fun v => v ∈ density_variables).Nodup := hnd.filter _
  have hcard := List.toFinset_card_of_nodup hfnd
  rw [hmap, ← hcard, density_filter_toFinset vn h1 h2 h3]
  decide

/-- Claim C6: the density estimator's input holds exactly the 3 continuous
variables `velocity_y`, `accel_x`, `accel_z`, selected by name from the
variable list (so each data row fed to the estimator has width 3), and
each pitcher's density is rendered on the one fixed grid
`mins=[-2.0, -2.5, -3.0]`, `maxes=[3.0, 2.5, 2.0]`,
`resolutions=[10, 10, 10]`, so every rendered voxel grid has the same
fixed 10-by-10-by-10 shape. -/
theorem density_fit_render_c6 (variable_names : List String)
    (hnd : variable_names.Nodup)
    (h1 : "velocity_y" ∈ variable_names) (h2 : "accel_x" ∈ variable_names)
    (h3 : "accel_z" ∈ variable_names)
    (densities : String → ℚ → ℚ → ℚ → ℚ) (names : List String) :
    ((densityColumns variable_names).map (fun i => variable_names.getD i "")
        = variable_names.filter (fun v => v ∈ density_variables) ∧
     (variable_names.filter fun v => v ∈ density_variables).toFinset
        = {"velocity_y", "accel_x", "accel_z"} ∧
     (densityColumns variable_names).length = 3 ∧
     ∀ d : PitchData, ∀ row ∈ pitcherDensityData variable_names d, row.length = 3) ∧
    (∀ pr ∈ pitcherDensityRenders densities names,
      pr.2.length = 10 ∧ ∀ p ∈ pr.2, p.length = 10 ∧ ∀ q ∈ p, q.length = 10) := by
  refine ⟨⟨densityColumns_names variable_names,
    density_filter_toFinset variable_names h1 h2 h3,
    densityColumns_length variable_names hnd h1 h2 h3, ?_⟩, ?_⟩
  · intro d row hrow
    rw [pitcherDensityData] at hrow
    obtain ⟨r, -, rfl⟩ := List.mem_map.mp hrow
    rw [List.length_map]
    exact densityColumns_length variable_names hnd h1 h2 h3
  · intro pr hpr
    rw [pitcherDensityRenders] at hpr
    obtain ⟨name, -, rfl⟩ := List.mem_map.mp hpr
    refine ⟨by simp [render], ?_⟩
    intro p hp
    rw [render] at hp
    simp only [List.mem_map] at hp
    obtain ⟨i, -, rfl⟩ := hp
    refine ⟨by simp, ?_⟩
    intro q hq
    simp only [List.mem_map] at hq
    obtain ⟨j, -, rfl⟩ := hq
    simp

/-- Witness for C6 on a concrete variable list. -/
theorem density_fit_render_c6_witness :
    (densityColumns ["x0", "velocity_y", "accel_x", "accel_z"]).length = 3 ∧
    ∀ pr ∈ pitcherDensityRenders (fun _ _ _ _ => 0) ["zito"], pr.2.length = 10 := by
  have h := density_fit_render_c6 ["x0", "velocity_y", "accel_x", "accel_z"]
    (by decide) (by decide) (by decide) (by decide) (fun _ _ _ _ => 0) ["zito"]
  exact ⟨h.1.2.2.1, fun pr hpr => (h.2 pr hpr).1⟩

/-! Claim C7: the bootstrap model comparison. -/

theorem selectRows_eq_map (idx : List ℕ) (l : List α) (dflt : α)
    (h : ∀ i ∈ idx, i < l.length) :
    selectRows idx l = idx.map fun i => l.getD i dflt := by
  induction idx with
  | nil => rfl
  | cons i rest ih =>
    have hi : i < l.length := h i (by simp)
    have hsel : selectRows (i :: rest) l = l[i] :: selectRows rest l := by
      simp [selectRows, List.filterMap_cons, List.get?_eq_getElem?,
        List.getElem?_eq_getElem hi]
    rw [hsel, List.map_cons, ih fun j hj => h j (by simp [hj])]
    rw [List.getD_eq_getElem?_getD, List.getElem?_eq_getElem hi]
    rfl

/-- Claim C7: from the fixed block of per-observation scores, the bootstrap
performs exactly one iteration per drawn index list (500 draws of 32768
in-range indices each); each iteration resamples the rows of
`combined_scores` with its one index list — the same resample for every
model simultaneously — and reports, for each model, the score
`exp(-mean(log(resampled scores)))` computed from that model's own
per-observation scores at exactly the drawn indices. -/
theorem bootstrap_c7 (draws : List (List ℕ)) (preds : List (List (List ℚ)))
    (outs : List ℕ) (hd : draws.length = 500)
    (hdl : ∀ dl ∈ draws, dl.length = 32768 ∧ ∀ i ∈ dl, i < 32768)
    (ho : outs.length = 32768) (hp : preds ≠ []) :
    (bootstrappedScores draws (combinedScores preds outs)).length = 500 ∧
    bootstrappedScores draws (combinedScores preds outs)
      = draws.map fun dl => (List.range preds.length).map fun j =>
          perplexity (dl.map fun i =>
            (Rat.cast (((preds.getD j []).getD i []).getD (outs.getD i 0) 0) : ℝ)) := by
  have hSlen : ∀ r ∈ preds.map (fun p => modelObsScores p outs), r.length = outs.length := by
    intro r hr
    obtain ⟨p, -, rfl⟩ := List.mem_map.mp hr
    simp [modelObsScores]
  have hnumS : numCols (preds.map fun p => modelObsScores p outs) = outs.length := by
    obtain ⟨p0, ps, rfl⟩ : ∃ p0 ps, preds = p0 :: ps := by
      cases preds with
      | nil => exact absurd rfl hp
      | cons a b => exact ⟨a, b, rfl⟩
    simp [numCols, modelObsScores]
  have hcomblen : (combinedScores preds outs).length = outs.length := by
    rw [combinedScores, matTranspose, List.length_map, List.length_range, hnumS]
  have hrow : ∀ i, i < outs.length →
      (combinedScores preds outs).getD i []
        = (preds.map fun p => modelObsScores p outs).map fun r => r.getD i 0 := by
    intro i hi
    rw [combinedScores, matTranspose, List.getD_eq_getElem?_getD, List.getElem?_map,
      List.getElem?_range (by rw [hnumS]; exact hi)]
    rfl
  refine ⟨by simp [bootstrappedScores, hd], ?_⟩
  rw [bootstrappedScores]
  apply List.map_congr_left
  intro dl hdlmem
  obtain ⟨hdl32, hdlr⟩ := hdl dl hdlmem
  have hdlne : dl ≠ [] := by
    intro hnil
    rw [hnil] at hdl32
    simp at hdl32
  have hmem' : ∀ i ∈ dl, i < (combinedScores preds outs).length := by
    rw [hcomblen, ho]
    exact hdlr
  have hsel : selectRows dl (combinedScores preds outs)
      = dl.map fun i => (preds.map fun p => modelObsScores p outs).map
          fun r => r.getD i 0 := by
    rw [selectRows_eq_map dl _ [] hmem']
    apply List.map_congr_left
    intro i hi
    have hio : i < outs.length := by
      rw [ho]
      exact hdlr i hi
    exact hrow i hio
  have hselcols : numCols (selectRows dl (combinedScores preds outs)) = preds.length := by
    obtain ⟨i0, dl', rfl⟩ : ∃ i0 dl', dl = i0 :: dl' := by
      cases dl with
      | nil => exact absurd rfl hdlne
      | cons a b => exact ⟨a, b, rfl⟩
    rw [hsel]
    simp [numCols]
  rw [scoresByModel, hselcols]
  apply List.map_congr_left
  intro j hj
  have hjlt : j < preds.length := List.mem_range.mp hj
  have hjS : j < (preds.map fun p => modelObsScores p outs).length := by
    rw [List.length_map]
    exact hjlt
  have harg : (column (selectRows dl (combinedScores preds outs)) j).map
        (Rat.cast : ℚ → ℝ)
      = dl.map fun i =>
          (Rat.cast (((preds.getD j []).getD i []).getD (outs.getD i 0) 0) : ℝ) := by
    rw [column, hsel, List.map_map, List.map_map]
    apply List.map_congr_left
    intro i hi
    have hio : i < outs.length := by
      rw [ho]
      exact hdlr i hi
    have e1 : (((preds.map fun p => modelObsScores p outs).map
          fun r => r.getD i 0).getD j 0)
        = ((preds.map fun p => modelObsScores p outs).getD j []).getD i 0 := by
      simp [List.getD_eq_getElem?_getD, List.getElem?_map,
        List.getElem?_eq_getElem hjS, List.getElem?_eq_getElem hjlt]
    have e2 : (preds.map fun p => modelObsScores p outs).getD j []
        = modelObsScores (preds.getD j []) outs := by
      simp [List.getD_eq_getElem?_getD, List.getElem?_map,
        List.getElem?_eq_getElem hjlt]
    have e3 : (modelObsScores (preds.getD j []) outs).getD i 0
        = ((preds.getD j []).getD i []).getD (outs.getD i 0) 0 := by
      simp [modelObsScores, List.getD_eq_getElem?_getD, List.getElem?_map,
        List.getElem?_enum, List.getElem?_eq_getElem hio]
    simp only [Function.comp]
    rw [e1, e2, e3]
  rw [harg]

/-- Witness for C7 on degenerate concrete draws and predictions. -/
theorem bootstrap_c7_witness :
    (bootstrappedScores (List.replicate 500 (List.replicate 32768 0))
      (combinedScores [List.replicate 32768 [1]] (List.replicate 32768 0))).length
        = 500 ∧
    bootstrappedScores (List.replicate 500 (List.replicate 32768 0))
        (combinedScores [List.replicate 32768 [1]] (List.replicate 32768 0))
      = (List.replicate 500 (List.replicate 32768 0)).map fun dl =>
          (List.range ([List.replicate 32768 [(1 : ℚ)]]).length).map fun j =>
            perplexity (dl.map fun i =>
              (Rat.cast ((([List.replicate 32768 [(1 : ℚ)]].getD j []).getD i []).getD
                ((List.replicate 32768 0).getD i 0) 0) : ℝ)) := by
  exact bootstrap_c7 (List.replicate 500 (List.replicate 32768 0))
    [List.replicate 32768 [1]] (List.replicate 32768 0)
    (by rw [List.length_replicate])
    (by
      intro dl hdl
      have h := List.eq_of_mem_replicate hdl
      refine ⟨by rw [h, List.length_replicate], ?_⟩
      intro i hi
      rw [h] at hi
      have h2 := List.eq_of_mem_replicate hi
      omega)
    (by rw [List.length_replicate]) (List.cons_ne_nil _ _)

/-! Claim C10: the summary table pairs each model with its own statistics. -/

theorem sorted_unique_by_key {α : Type} (key : α → ℚ) {l₁ l₂ : List α}
    (hp : l₁.Perm l₂)
    (h₁ : l₁.Pairwise fun a b => key a < key b)
    (h₂ : l₂.Pairwise fun a b => key a < key b) : l₁ = l₂ := by
  haveI : IsAntisymm α fun a b => key a < key b :=
    ⟨fun a b hab hba => absurd (lt_trans hab hba) (lt_irrefl _)⟩
  exact List.eq_of_perm_of_sorted hp h₁ h₂

theorem pairwise_key_lt_of_sorted {α : Type} (key : α → ℚ) (l : List α)
    (hs : l.Pairwise fun a b => key a ≤ key b)
    (hnd : (l.map key).Nodup) :
    l.Pairwise fun a b => key a < key b := by
  have hne : l.Pairwise fun a b => key a ≠ key b := List.pairwise_map.mp hnd
  exact (hs.and hne).imp fun h => lt_of_le_of_ne h.1 h.2

theorem map_indexOf_getD {β : Type} (L : List ℚ) (xs : List β) (d : β)
    (hnd : L.Nodup) (hlen : xs.length = L.length) :
    (L.map fun k => xs.getD (L.indexOf k) d) = xs := by
  apply List.ext_getElem
  · rw [List.length_map, hlen]
  · intro i h1 h2
    rw [List.getElem_map]
    have hiL : i < L.length := by simpa using h1
    have hidx : L.indexOf L[i] = i := List.indexOf_getElem hnd i hiL
    rw [hidx, List.getD_eq_getElem?_getD, List.getElem?_eq_getElem h2]
    rfl

theorem pySortQ_perm (L : List ℚ) : (pySortQ L).Perm L :=
  List.perm_insertionSort _ L

theorem pySortQ_pairwise_le (L : List ℚ) : (pySortQ L).Pairwise (· ≤ ·) :=
  List.sorted_insertionSort _ L

theorem pySortQ_pairwise_lt (L : List ℚ) (hnd : L.Nodup) :
    (pySortQ L).Pairwise (· < ·) := by
  have hnd' : (pySortQ L).Nodup := (pySortQ_perm L).nodup_iff.mpr hnd
  have := pairwise_key_lt_of_sorted (fun x => x) (pySortQ L)
    (pySortQ_pairwise_le L) (by simpa using hnd')
  exact this

theorem pySortPairs_nodup_eq {β : Type} [LinearOrder β] (L : List ℚ) (xs : List β)
    (d : β) (hnd : L.Nodup) (hlen : xs.length = L.length) :
    pySortPairs (L.zip xs) = (pySortQ L).map fun k => (k, xs.getD (L.indexOf k) d) := by
  haveI htot : IsTotal (ℚ × β) fun p q => p.1 < q.1 ∨ (p.1 = q.1 ∧ p.2 ≤ q.2) := by
    constructor
    intro p q
    rcases lt_trichotomy p.1 q.1 with h | h | h
    · exact Or.inl (Or.inl h)
    · rcases le_total p.2 q.2 with h2 | h2
      · exact Or.inl (Or.inr ⟨h, h2⟩)
      · exact Or.inr (Or.inr ⟨h.symm, h2⟩)
    · exact Or.inr (Or.inl h)
  haveI htr : IsTrans (ℚ × β) fun p q => p.1 < q.1 ∨ (p.1 = q.1 ∧ p.2 ≤ q.2) := by
    constructor
    rintro p q s (h1 | ⟨h1, h1'⟩) (h2 | ⟨h2, h2'⟩)
    · exact Or.inl (lt_trans h1 h2)
    · exact Or.inl (h2 ▸ h1)
    · exact Or.inl (h1 ▸ h2)
    · exact Or.inr ⟨h1.trans h2, h1'.trans h2'⟩
  have h1 : L.zip xs = L.map fun k => (k, xs.getD (L.indexOf k) d) := by
    have base := List.zip_map' id (fun k => xs.getD (L.indexOf k) d) L
    rw [List.map_id] at base
    rw [map_indexOf_getD L xs d hnd hlen] at base
    exact base.trans (by simp)
  have hperm : (pySortPairs (L.zip xs)).Perm
      ((pySortQ L).map fun k => (k, xs.getD (L.indexOf k) d)) := by
    refine (List.perm_insertionSort _ _).trans ?_
    rw [h1]
    exact ((pySortQ_perm L).map _).symm
  have hsortL : (pySortPairs (L.zip xs)).Pairwise
      fun p q => p.1 < q.1 ∨ (p.1 = q.1 ∧ p.2 ≤ q.2) :=
    List.sorted_insertionSort _ (L.zip xs)
  have hkeysL : ((pySortPairs (L.zip xs)).map Prod.fst).Nodup := by
    have hpm : ((pySortPairs (L.zip xs)).map Prod.fst).Perm ((L.zip xs).map Prod.fst) :=
      (List.perm_insertionSort _ _).map _
    have hfst : (L.zip xs).map Prod.fst = L :=
      List.map_fst_zip L xs (by rw [hlen])
    rw [hfst] at hpm
    exact hpm.nodup_iff.mpr hnd
  have hltL : (pySortPairs (L.zip xs)).Pairwise fun p q => p.1 < q.1 := by
    have hne : (pySortPairs (L.zip xs)).Pairwise fun p q => p.1 ≠ q.1 :=
      List.pairwise_map.mp hkeysL
    exact (hsortL.and hne).imp fun h => h.1.elim id fun he => absurd he.1 h.2
  have hltR : ((pySortQ L).map fun k => (k, xs.getD (L.indexOf k) d)).Pairwise
      fun p q => p.1 < q.1 := by
    rw [List.pairwise_map]
    exact pySortQ_pairwise_lt L hnd
  exact sorted_unique_by_key Prod.fst hperm hltL hltR

theorem zip4_map {α : Type} {β₁ β₂ β₃ : Type}
    (f1 : α → β₁) (f2 : α → β₂) (f3 : α → β₃) (S : List α) :
    (S.map f1).zip ((S.map f2).zip ((S.map f3).zip S))
      = S.map fun k => (f1 k, f2 k, f3 k, k) := by
  induction S with
  | nil => rfl
  | cons a s ih => simp [ih]

/-- Claim C10: when the models' last validation scores are pairwise
distinct, `print_summary` prints exactly one row per model (the rows are a
permutation of the models' rows), ordered by last validation score
ascending, and each printed row pairs a model's name with that same
model's fit time, minimum validation score and last validation score: the
three independent key-based sorts stay consistent. -/
theorem print_summary_c10 (er : List (String × EvalResult))
    (hnd : (er.map fun kv => lastScore kv.2.validation_score).Nodup) :
    printSummary er = summaryRowsByLast er ∧
    (summaryRowsByLast er).Perm (er.map fun kv =>
      (kv.1, kv.2.fit_time, minScore kv.2.validation_score,
        lastScore kv.2.validation_score)) ∧
    (summaryRowsByLast er).Pairwise fun r s => r.2.2.2 ≤ s.2.2.2 := by
  haveI htot4 : IsTotal (String × ℚ × ℚ × ℚ) fun r s => r.2.2.2 ≤ s.2.2.2 :=
    ⟨fun r s => le_total _ _⟩
  haveI htr4 : IsTrans (String × ℚ × ℚ × ℚ) fun r s => r.2.2.2 ≤ s.2.2.2 :=
    ⟨fun r s t h1 h2 => h1.trans h2⟩
  have hpermR : (summaryRowsByLast er).Perm (er.map fun kv =>
      (kv.1, kv.2.fit_time, minScore kv.2.validation_score,
        lastScore kv.2.validation_score)) :=
    List.perm_insertionSort _ _
  have hsortR : (summaryRowsByLast er).Pairwise fun r s => r.2.2.2 ≤ s.2.2.2 :=
    List.sorted_insertionSort _ _
  refine ⟨?_, hpermR, hsortR⟩
  have hkeysrows : ((er.map fun kv =>
      (kv.1, kv.2.fit_time, minScore kv.2.validation_score,
        lastScore kv.2.validation_score)).map fun r => r.2.2.2)
      = er.map fun kv => lastScore kv.2.validation_score := by
    rw [List.map_map]
    rfl
  have hkeysR : ((summaryRowsByLast er).map fun r => r.2.2.2).Nodup := by
    have hpm := hpermR.map fun r : String × ℚ × ℚ × ℚ => r.2.2.2
    rw [hkeysrows] at hpm
    exact hpm.nodup_iff.mpr hnd
  have hltR : (summaryRowsByLast er).Pairwise fun r s => r.2.2.2 < s.2.2.2 :=
    pairwise_key_lt_of_sorted (fun r : String × ℚ × ℚ × ℚ => r.2.2.2) _ hsortR hkeysR
  have hlen1 : (er.map fun kv => kv.1).length
      = (er.map fun kv => lastScore kv.2.validation_score).length := by
    rw [List.length_map, List.length_map]
  have hlen2 : (er.map fun kv => kv.2.fit_time).length
      = (er.map fun kv => lastScore kv.2.validation_score).length := by
    rw [List.length_map, List.length_map]
  have hlen3 : (er.map fun kv => minScore kv.2.validation_score).length
      = (er.map fun kv => lastScore kv.2.validation_score).length := by
    rw [List.length_map, List.length_map]
  have hnames := pySortPairs_nodup_eq
    (er.map fun kv => lastScore kv.2.validation_score) (er.map fun kv => kv.1)
    "" hnd hlen1
  have htimes := pySortPairs_nodup_eq
    (er.map fun kv => lastScore kv.2.validation_score)
    (er.map fun kv => kv.2.fit_time) 0 hnd hlen2
  have hmins := pySortPairs_nodup_eq
    (er.map fun kv => lastScore kv.2.validation_score)
    (er.map fun kv => minScore kv.2.validation_score) 0 hnd hlen3
  have hps : printSummary er
      = (pySortQ (er.map fun kv => lastScore kv.2.validation_score)).map fun k =>
          ((er.map fun kv => kv.1).getD
            ((er.map fun kv => lastScore kv.2.validation_score).indexOf k) "",
           (er.map fun kv => kv.2.fit_time).getD
            ((er.map fun kv => lastScore kv.2.validation_score).indexOf k) 0,
           (er.map fun kv => minScore kv.2.validation_score).getD
            ((er.map fun kv => lastScore kv.2.validation_score).indexOf k) 0,
           k) := by
    show ((pySortPairs ((er.map fun kv => lastScore kv.2.validation_score).zip
        (er.map fun kv => kv.1))).map fun p => p.2).zip
      ((((pySortPairs ((er.map fun kv => lastScore kv.2.validation_score).zip
        (er.map fun kv => kv.2.fit_time))).map fun p => p.2)).zip
       ((((pySortPairs ((er.map fun kv => lastScore kv.2.validation_score).zip
        (er.map fun kv => minScore kv.2.validation_score))).map fun p => p.2)).zip
        (pySortQ (er.map fun kv => lastScore kv.2.validation_score)))) = _
    rw [hnames, htimes, hmins, List.map_map, List.map_map, List.map_map]
    exact zip4_map _ _ _ _
  have hLmap : ((er.map fun kv => lastScore kv.2.validation_score).map fun k =>
        ((er.map fun kv => kv.1).getD
          ((er.map fun kv => lastScore kv.2.validation_score).indexOf k) "",
         (er.map fun kv => kv.2.fit_time).getD
          ((er.map fun kv => lastScore kv.2.validation_score).indexOf k) 0,
         (er.map fun kv => minScore kv.2.validation_score).getD
          ((er.map fun kv => lastScore kv.2.validation_score).indexOf k) 0,
         k))
      = er.map fun kv =>
          (kv.1, kv.2.fit_time, minScore kv.2.validation_score,
            lastScore kv.2.validation_score) := by
    apply List.ext_getElem
    · rw [List.length_map, List.length_map, List.length_map]
    · intro i h1 h2
      have hie : i < er.length := by simpa using h2
      have hiL : i < (er.map fun kv => lastScore kv.2.validation_score).length := by
        simpa using hie
      rw [List.getElem_map, List.getElem_map, List.getElem_map]
      have hidx : (er.map fun kv => lastScore kv.2.validation_score).indexOf
          (lastScore er[i].2.validation_score) = i := by
        have h := List.indexOf_getElem hnd i hiL
        rw [List.getElem_map] at h
        exact h
      rw [hidx]
      have g1 : (er.map fun kv => kv.1).getD i "" = er[i].1 := by
        rw [List.getD_eq_getElem?_getD, List.getElem?_map,
          List.getElem?_eq_getElem hie]
        rfl
      have g2 : (er.map fun kv => kv.2.fit_time).getD i 0 = er[i].2.fit_time := by
        rw [List.getD_eq_getElem?_getD, List.getElem?_map,
          List.getElem?_eq_getElem hie]
        rfl
      have g3 : (er.map fun kv => minScore kv.2.validation_score).getD i 0
          = minScore er[i].2.validation_score := by
        rw [List.getD_eq_getElem?_getD, List.getElem?_map,
          List.getElem?_eq_getElem hie]
        rfl
      rw [g1, g2, g3]
  have hpermL : (printSummary er).Perm (er.map fun kv =>
      (kv.1, kv.2.fit_time, minScore kv.2.validation_score,
        lastScore kv.2.validation_score)) := by
    rw [hps, ← hLmap]
    exact (pySortQ_perm _).map _
  have hltL : (printSummary er).Pairwise fun r s => r.2.2.2 < s.2.2.2 := by
    rw [hps, List.pairwise_map]
    exact pySortQ_pairwise_lt _ hnd
  exact sorted_unique_by_key (fun r => r.2.2.2)
    (hpermL.trans hpermR.symm) hltL hltR

/-- Concrete evaluation results for the C10 witness. -/
def evalRunA : EvalResult := ⟨[1, 4], 9⟩

/-- Concrete evaluation results for the C10 witness. -/
def evalRunB : EvalResult := ⟨[3, 2], 7⟩

/-- Witness for C10 on two concrete models with distinct last scores. -/
theorem print_summary_c10_witness :
    printSummary [("b", evalRunB), ("a", evalRunA)]
      = summaryRowsByLast [("b", evalRunB), ("a", evalRunA)] ∧
    (summaryRowsByLast [("b", evalRunB), ("a", evalRunA)]).Perm
      ([("b", evalRunB), ("a", evalRunA)].map fun kv =>
        (kv.1, kv.2.fit_time, minScore kv.2.validation_score,
          lastScore kv.2.validation_score)) ∧
    (summaryRowsByLast [("b", evalRunB), ("a", evalRunA)]).Pairwise
      fun r s => r.2.2.2 ≤ s.2.2.2 := by
  exact print_summary_c10 [("b", evalRunB), ("a", evalRunA)] (by decide)

end Stengel
